import Mathlib

/-!
Verification development for the DailyLoggerAssist repository.

The definitions below are shallow embeddings of the repository's code:
the AI response parsers of the development document (`AIResponseParser`),
the work-item form validation schema (`frontend/src/pages/WorkItems/WorkItemForm.tsx`),
and the dashboard statistics computation (`frontend/src/pages/Dashboard/Dashboard.tsx`).
Pipeline components that the repository only declares (validation router,
weekly distributor, report composer, task orchestrator, ticket matcher)
are modelled from the specification, as marked in their doc comments.
-/

namespace DailyLogger

/-! ## AI analysis response parsing (AIResponseParser.parse_analysis_response) -/

/-- Result record of the content analysis, mirroring the `AIAnalysis` schema
fields set by `parse_analysis_response`. -/
structure AIAnalysis where
  description : String
  time_spent : Int
  project_hints : List String
  confidence : ℚ
  technical_details : String
deriving Repr, DecidableEq

/-- A JSON object successfully produced by `json.loads`, with the keys the
parser reads via `data.get`; a missing key is `none`. -/
structure AnalysisJson where
  description : Option String
  time_spent : Option Int
  project_hints : Option (List String)
  confidence : Option ℚ
  technical_details : Option String
deriving Repr, DecidableEq

/-- The inference-service response as seen by the parser: either `json.loads`
succeeds and yields an object, or it raises `JSONDecodeError` on the raw text. -/
inductive AIResponse where
  | parsed (data : AnalysisJson)
  | malformed (raw : String)
deriving Repr, DecidableEq

/-- Embedding of `AIResponseParser.parse_analysis_response`: on a parsed JSON
object each field is read with `data.get` and its default; on a
`JSONDecodeError` the fallback analysis is built from the first 200 characters
of the raw text with confidence fixed at 0.3. -/
def parse_analysis_response : AIResponse → AIAnalysis
  | .parsed data =>
      { description := data.description.getD ""
        time_spent := data.time_spent.getD 0
        project_hints := data.project_hints.getD []
        confidence := data.confidence.getD 0
        technical_details := data.technical_details.getD "" }
  | .malformed raw =>
      { description := raw.take 200
        time_spent := 0
        project_hints := []
        confidence := 3/10
        technical_details := "" }

/-! ## Validation router (three-tier confidence classification) -/

/-- Modelled from the spec: the Validation Router is only declared in the
design document (§8.3.1 confidence scoring tiers); the spec's §4.3 transition
rule is a pure function of the extraction confidence and the optional selected
ticket-match confidence, with default thresholds 0.5 and 0.8. -/
def mediumThreshold : ℚ := 1/2

/-- Modelled from the spec: high confidence threshold, default 0.8. -/
def highThreshold : ℚ := 4/5

/-- The three router states of spec §4.3. -/
inductive RouteState where
  | AUTO_APPROVE
  | NEEDS_REVIEW
  | MANUAL_FALLBACK
deriving Repr, DecidableEq

/-- Modelled from the spec: the ticket gate of the auto-approve rule —
either no ticket is required (no selected match) or the selected match's
confidence reaches the high threshold. -/
def ticketOk : Option ℚ → Bool
  | none => true
  | some t => highThreshold ≤ t

/-- Modelled from the spec: the stateless three-tier classification of §4.3.
`c` is the extraction's confidence, `ticket` the selected ticket-match
confidence when a ticket is required. -/
def classify (c : ℚ) (ticket : Option ℚ) : RouteState :=
  if highThreshold ≤ c ∧ ticketOk ticket = true then .AUTO_APPROVE
  else if mediumThreshold ≤ c then .NEEDS_REVIEW
  else .MANUAL_FALLBACK

/-- WorkItem status values (spec §3 data model). -/
inductive WIStatus where
  | pending
  | in_progress
  | completed
  | cancelled
deriving Repr, DecidableEq

/-- A WorkItem as auto-created by the router: status and the boolean
review flag (a flag, not a separate status). -/
structure RoutedWorkItem where
  status : WIStatus
  reviewFlag : Bool
deriving Repr, DecidableEq

/-- Modelled from the spec: the WorkItem the router auto-creates, if any.
`AUTO_APPROVE` creates a pending WorkItem, `NEEDS_REVIEW` creates a pending
WorkItem flagged for review, `MANUAL_FALLBACK` creates none. -/
def routeWorkItem (c : ℚ) (ticket : Option ℚ) : Option RoutedWorkItem :=
  match classify c ticket with
  | .AUTO_APPROVE => some { status := .pending, reviewFlag := false }
  | .NEEDS_REVIEW => some { status := .pending, reviewFlag := true }
  | .MANUAL_FALLBACK => none

end DailyLogger

namespace DailyLogger

/-- Claim C1: with the default thresholds 0.5 and 0.8, the router sends
confidence at least 0.8 with a satisfied ticket gate to AUTO_APPROVE and
creates a pending WorkItem; confidence in the interval from 0.5 up to but
excluding 0.8 to NEEDS_REVIEW with a pending WorkItem carrying the boolean
review flag; confidence below 0.5 to MANUAL_FALLBACK with no WorkItem; and
the classification assigns exactly one of the three states to every
confidence in the unit interval. -/
theorem router_three_tier_classification (c : ℚ) (ticket : Option ℚ)
    (hc0 : 0 ≤ c) (hc1 : c ≤ 1) :
    (highThreshold ≤ c → ticketOk ticket = true →
      classify c ticket = .AUTO_APPROVE ∧
      routeWorkItem c ticket = some { status := .pending, reviewFlag := false }) ∧
    (mediumThreshold ≤ c → c < highThreshold →
      classify c ticket = .NEEDS_REVIEW ∧
      routeWorkItem c ticket = some { status := .pending, reviewFlag := true }) ∧
    (c < mediumThreshold →
      classify c ticket = .MANUAL_FALLBACK ∧
      routeWorkItem c ticket = none) ∧
    (classify c ticket = .AUTO_APPROVE ∨ classify c ticket = .NEEDS_REVIEW ∨
      classify c ticket = .MANUAL_FALLBACK) := by
  refine ⟨?_, ?_, ?_, ?_⟩
  · intro hhi htk
    have : classify c ticket = .AUTO_APPROVE := by
      unfold classify
      rw [if_pos ⟨hhi, htk⟩]
    exact ⟨this, by unfold routeWorkItem; rw [this]⟩
  · intro hmed hlt
    have : classify c ticket = .NEEDS_REVIEW := by
      unfold classify
      rw [if_neg (by rintro ⟨h, -⟩; exact absurd h (not_le.mpr hlt)), if_pos hmed]
    exact ⟨this, by unfold routeWorkItem; rw [this]⟩
  · intro hlo
    have hnh : ¬ (highThreshold ≤ c ∧ ticketOk ticket = true) := by
      rintro ⟨h, -⟩
      have : mediumThreshold ≤ c :=
        le_trans (by norm_num [mediumThreshold, highThreshold]) h
      exact absurd this (not_le.mpr hlo)
    have : classify c ticket = .MANUAL_FALLBACK := by
      unfold classify
      rw [if_neg hnh, if_neg (not_le.mpr hlo)]
    exact ⟨this, by unfold routeWorkItem; rw [this]⟩
  · unfold classify
    split
    · exact Or.inl rfl
    · split
      · exact Or.inr (Or.inl rfl)
      · exact Or.inr (Or.inr rfl)

/-- Claim C3: every malformed inference-service response yields the fallback
analysis whose description is the raw text truncated to 200 characters and
whose confidence is the configured floor 0.3; that fallback is classified
MANUAL_FALLBACK (whatever ticket evidence is present) and no WorkItem is
auto-created, so the message is never silently discarded. -/
theorem malformed_response_fallback_manual (raw : String) (ticket : Option ℚ) :
    parse_analysis_response (.malformed raw) =
      { description := raw.take 200, time_spent := 0, project_hints := [],
        confidence := 3/10, technical_details := "" } ∧
    classify (parse_analysis_response (.malformed raw)).confidence ticket =
      .MANUAL_FALLBACK ∧
    routeWorkItem (parse_analysis_response (.malformed raw)).confidence ticket =
      none := by
  refine ⟨rfl, ?_, ?_⟩
  · show classify (3/10) ticket = .MANUAL_FALLBACK
    unfold classify
    rw [if_neg (by rintro ⟨h, -⟩; revert h; norm_num [highThreshold]),
      if_neg (by norm_num [mediumThreshold])]
  · show routeWorkItem (3/10) ticket = none
    unfold routeWorkItem
    have h : classify (3/10) ticket = .MANUAL_FALLBACK := by
      unfold classify
      rw [if_neg (by rintro ⟨h, -⟩; revert h; norm_num [highThreshold]),
        if_neg (by norm_num [mediumThreshold])]
    rw [h]

/-- Claim C4 counterexample: a well-formed JSON response reporting confidence
1.5 is not treated as a parse failure — the parser returns an analysis whose
confidence is 1.5, outside the unit interval, and distinct from the 0.3
fallback floor, so out-of-range confidences are neither rejected nor clamped. -/
theorem parser_accepts_out_of_range_confidence :
    (parse_analysis_response
      (.parsed ⟨some "worked on login", some 120, some ["auth"], some (3/2),
        none⟩)).confidence = 3/2 ∧
    ¬ ((parse_analysis_response
      (.parsed ⟨some "worked on login", some 120, some ["auth"], some (3/2),
        none⟩)).confidence ≤ 1) ∧
    (parse_analysis_response
      (.parsed ⟨some "worked on login", some 120, some ["auth"], some (3/2),
        none⟩)).confidence ≠ 3/10 := by
  refine ⟨rfl, by norm_num [parse_analysis_response], by
    norm_num [parse_analysis_response]⟩

/-- Claim C4 (amended): the parser takes the analyzer-reported confidence
as-is whenever the response is well-formed JSON carrying a confidence value —
including values outside the unit interval, which propagate unvalidated into
the resulting analysis; only a JSON decode failure triggers the 0.3 fallback. -/
theorem parser_confidence_passthrough (data : AnalysisJson) (c : ℚ)
    (h : data.confidence = some c) :
    (parse_analysis_response (.parsed data)).confidence = c := by
  simp [parse_analysis_response, h]

/-- Claim C4 witness: the pass-through evaluated at a concrete response
reporting confidence 0.85. -/
theorem parser_confidence_passthrough_witness :
    (parse_analysis_response
      (.parsed ⟨some "fixed auth bug", some 120, some ["auth"], some (17/20),
        none⟩)).confidence = 17/20 :=
  parser_confidence_passthrough
    ⟨some "fixed auth bug", some 120, some ["auth"], some (17/20), none⟩
    (17/20) rfl

/-- Claim C1 witness: concrete evaluations of the router at confidences
0.9 (with ticket confidence 0.85), 0.6, and 0.3. -/
theorem router_three_tier_classification_witness :
    classify (9/10) (some (17/20)) = .AUTO_APPROVE ∧
    classify (3/5) none = .NEEDS_REVIEW ∧
    routeWorkItem (3/5) none = some { status := .pending, reviewFlag := true } ∧
    classify (3/10) none = .MANUAL_FALLBACK := by
  refine ⟨?_, ?_, ?_, ?_⟩
  · exact ((router_three_tier_classification (9/10) (some (17/20)) (by norm_num)
      (by norm_num)).1 (by norm_num [highThreshold])
      (by norm_num [ticketOk, highThreshold])).1
  · exact ((router_three_tier_classification (3/5) none (by norm_num)
      (by norm_num)).2.1 (by norm_num [mediumThreshold])
      (by norm_num [highThreshold])).1
  · exact ((router_three_tier_classification (3/5) none (by norm_num)
      (by norm_num)).2.1 (by norm_num [mediumThreshold])
      (by norm_num [highThreshold])).2
  · exact ((router_three_tier_classification (3/10) none (by norm_num)
      (by norm_num)).2.2.1 (by norm_num [mediumThreshold])).1

end DailyLogger

namespace DailyLogger

/-! ## Work-item form validation schema (WorkItemForm.tsx) -/

/-- The submitted form values; a `none` field is an `undefined` value. -/
structure WorkItemFormData where
  description : Option String
  category : Option String
  priority : Option String
  status : Option String
  estimated_hours : Option ℚ
  actual_hours : Option ℚ
  tags : Option (List String)
deriving Repr, DecidableEq

/-- Semantics of `yup.string().required(msg)`: rejects an absent value and the
empty string. -/
def yupRequiredString : Option String → Bool
  | none => false
  | some s => !(s == "")

/-- Semantics of `yup.number().required(msg).min(lo).max(hi)`: rejects an
absent value; both bounds are inclusive. -/
def yupRequiredNumber (lo hi : ℚ) : Option ℚ → Bool
  | none => false
  | some x => decide (lo ≤ x) && decide (x ≤ hi)

/-- Semantics of `yup.number().notRequired().min(lo).max(hi)`: an absent value
passes; a present value is bound-checked. -/
def yupOptionalNumber (lo hi : ℚ) : Option ℚ → Bool
  | none => true
  | some x => decide (lo ≤ x) && decide (x ≤ hi)

/-- Embedding of the `schema` object of `WorkItemForm.tsx`: description,
category, priority and status are required strings, estimated_hours is a
required number in [0.1, 24], actual_hours an optional number in [0, 24],
tags an optional string array (no constraint beyond its type). -/
def schema (d : WorkItemFormData) : Bool :=
  yupRequiredString d.description &&
  yupRequiredString d.category &&
  yupRequiredString d.priority &&
  yupRequiredString d.status &&
  yupRequiredNumber (1/10) 24 d.estimated_hours &&
  yupOptionalNumber 0 24 d.actual_hours

theorem yupRequiredString_iff (o : Option String) :
    yupRequiredString o = true ↔ ∃ s, o = some s ∧ s ≠ "" := by
  cases o <;> simp [yupRequiredString]

theorem yupRequiredNumber_iff (lo hi : ℚ) (o : Option ℚ) :
    yupRequiredNumber lo hi o = true ↔ ∃ x, o = some x ∧ lo ≤ x ∧ x ≤ hi := by
  cases o <;> simp [yupRequiredNumber]

theorem yupOptionalNumber_iff (lo hi : ℚ) (o : Option ℚ) :
    yupOptionalNumber lo hi o = true ↔ ∀ x, o = some x → lo ≤ x ∧ x ≤ hi := by
  cases o <;> simp [yupOptionalNumber]

/-- Claim C9: the work-item form schema accepts a submission exactly when
description, category, priority and status are present and non-empty,
estimated_hours is present and lies in [0.1, 24], and actual_hours, when
provided, lies in [0, 24]. -/
theorem schema_accepts_iff (d : WorkItemFormData) :
    schema d = true ↔
      ((∃ s, d.description = some s ∧ s ≠ "") ∧
       (∃ s, d.category = some s ∧ s ≠ "") ∧
       (∃ s, d.priority = some s ∧ s ≠ "") ∧
       (∃ s, d.status = some s ∧ s ≠ "") ∧
       (∃ e, d.estimated_hours = some e ∧ (1:ℚ)/10 ≤ e ∧ e ≤ 24) ∧
       (∀ a, d.actual_hours = some a → (0:ℚ) ≤ a ∧ a ≤ 24)) := by
  unfold schema
  rw [Bool.and_eq_true, Bool.and_eq_true, Bool.and_eq_true, Bool.and_eq_true,
    Bool.and_eq_true]
  rw [yupRequiredString_iff, yupRequiredString_iff, yupRequiredString_iff,
    yupRequiredString_iff, yupRequiredNumber_iff, yupOptionalNumber_iff]
  tauto

/-- Claim C9 witness: the characterization applied at a concrete accepted
submission (2 estimated hours, no actual hours) and the boundary facts it
certifies. -/
theorem schema_accepts_iff_witness :
    schema ⟨some "fix login bug", some "bug_fix", some "high", some "pending",
      some 2, none, some ["auth"]⟩ = true :=
  (schema_accepts_iff ⟨some "fix login bug", some "bug_fix", some "high",
    some "pending", some 2, none, some ["auth"]⟩).mpr
    ⟨⟨"fix login bug", rfl, by decide⟩, ⟨"bug_fix", rfl, by decide⟩,
     ⟨"high", rfl, by decide⟩, ⟨"pending", rfl, by decide⟩,
     ⟨2, rfl, by norm_num, by norm_num⟩, by intro a h; cases h⟩

/-! ## Dashboard statistics (Dashboard.tsx calculateStats) -/

/-- A work item as the dashboard sees it. -/
structure FEWorkItem where
  status : String
  priority : String
  estimated_hours : ℚ
  actual_hours : Option ℚ
deriving Repr, DecidableEq

/-- A JavaScript number for the dashboard computation: NaN, Infinity, or a
finite (rational) value. -/
inductive JsNum where
  | nan
  | inf
  | num (q : ℚ)
deriving Repr, DecidableEq

/-- JavaScript division: 0/0 is NaN, x/0 with positive x is Infinity. -/
def jsDiv (a b : ℚ) : JsNum :=
  if b = 0 then (if a = 0 then .nan else .inf) else .num (a / b)

/-- Multiplication by 100: NaN and Infinity propagate. -/
def jsMul100 : JsNum → JsNum
  | .nan => .nan
  | .inf => .inf
  | .num q => .num (100 * q)

/-- `Math.round`: NaN and Infinity propagate; a finite value rounds half up. -/
def jsRound : JsNum → JsNum
  | .nan => .nan
  | .inf => .inf
  | .num q => .num ((round q : ℤ) : ℚ)

/-- `x || 0`: NaN and 0 are falsy and give 0; any other value passes through. -/
def jsOrZero : JsNum → JsNum
  | .nan => .num 0
  | .inf => .inf
  | .num q => if q = 0 then .num 0 else .num q

/-- The stats record set by `calculateStats`. -/
structure DashboardStats where
  totalHours : ℚ
  completedTasks : ℕ
  pendingTasks : ℕ
  productivityScore : JsNum
deriving Repr, DecidableEq

/-- Embedding of `calculateStats` from `Dashboard.tsx`: total hours reduce
`actual_hours || 0` over the items, completed and pending tasks are filter
counts, and the productivity score is
`Math.round((completedTasks / items.length) * 100) || 0`. -/
def calculateStats (items : List FEWorkItem) : DashboardStats :=
  let totalHours := items.foldl (fun s i => s + (i.actual_hours.getD 0)) 0
  let completedTasks := (items.filter (fun i => i.status == "completed")).length
  let pendingTasks :=
    (items.filter (fun i => i.status == "pending" || i.status == "in_progress")).length
  let productivityScore :=
    jsOrZero (jsRound (jsMul100 (jsDiv (completedTasks : ℚ) (items.length : ℚ))))
  { totalHours := totalHours, completedTasks := completedTasks,
    pendingTasks := pendingTasks, productivityScore := productivityScore }

theorem foldl_add_getD (l : List FEWorkItem) (a : ℚ) :
    l.foldl (fun s i => s + (i.actual_hours.getD 0)) a =
      a + (l.map (fun i => i.actual_hours.getD 0)).sum := by
  induction l generalizing a with
  | nil => simp
  | cons x xs ih => simp [List.foldl_cons, ih, add_assoc]

/-- Claim C10: the dashboard statistics computation is total on every
work-item list: on the empty list the productivity score is 0 (the NaN from
the 0/0 division is replaced by the or-zero guard) and the total hours are 0;
on every list the total hours are the sum of `actual_hours` with absent
values contributing 0; and the productivity score is always a finite number —
neither NaN nor Infinity ever reaches the computed stats. -/
theorem calculateStats_total :
    (calculateStats []).productivityScore = .num 0 ∧
    (calculateStats []).totalHours = 0 ∧
    (∀ items : List FEWorkItem,
      (calculateStats items).totalHours =
        (items.map (fun i => i.actual_hours.getD 0)).sum) ∧
    (∀ items : List FEWorkItem,
      ∃ q : ℚ, (calculateStats items).productivityScore = .num q) := by
  refine ⟨?_, ?_, ?_, ?_⟩
  · simp [calculateStats, jsDiv, jsMul100, jsRound, jsOrZero]
  · simp [calculateStats]
  · intro items
    simp only [calculateStats]
    rw [foldl_add_getD]
    ring
  · intro items
    cases items with
    | nil => exact ⟨0, by simp [calculateStats, jsDiv, jsMul100, jsRound, jsOrZero]⟩
    | cons x xs =>
      simp only [calculateStats, jsDiv]
      rw [if_neg (ne_of_gt (by exact_mod_cast Nat.succ_pos xs.length))]
      simp only [jsMul100, jsRound, jsOrZero]
      split
      · exact ⟨0, rfl⟩
      · exact ⟨_, rfl⟩

end DailyLogger

namespace DailyLogger

/-! ## Weekly distributor (modelled from the spec) -/

/-- WorkItem priority levels, urgent first (spec §4.6 sort order). -/
inductive Priority where
  | urgent
  | high
  | medium
  | low
deriving Repr, DecidableEq

/-- Sort rank of a priority: urgent before high before medium before low. -/
def Priority.rank : Priority → ℕ
  | .urgent => 0
  | .high => 1
  | .medium => 2
  | .low => 3

/-- A work item as the Weekly Distributor consumes it; `id` identifies the
item, the list order is the creation order. -/
structure DWorkItem where
  id : ℕ
  priority : Priority
  estimatedMinutes : ℕ
deriving Repr, DecidableEq

/-- One (WorkItem, allocated-minutes) pair of a DailySchedule. -/
structure Allocation where
  itemId : ℕ
  minutes : ℕ
deriving Repr, DecidableEq

/-- A day's ordered allocation sequence. -/
structure DaySchedule where
  allocs : List Allocation
deriving Repr, DecidableEq

/-- Total minutes allocated on a day. -/
def DaySchedule.used (d : DaySchedule) : ℕ :=
  (d.allocs.map Allocation.minutes).sum

/-- The overflow report for a work item that could not be fully placed by
week's end (flagged, not errored). -/
structure OverflowReport where
  itemId : ℕ
  minutes : ℕ
deriving Repr, DecidableEq

/-- Modelled from the spec: `distribute_8_hour_days` is only declared in the
design document (§4.1.3 `WeeklyReportGenerator`); this allocates a single
work item greedily across the week's days, filling each day's remaining
capacity before moving to the next (splitting across days), and returns the
updated days together with the unplaced remainder. -/
def allocateItem (cap itemId : ℕ) : List DaySchedule → ℕ → List DaySchedule × ℕ
  | [], rem => ([], rem)
  | d :: ds, rem =>
    let tk := min (cap - d.used) rem
    let d2 := if tk = 0 then d else { allocs := d.allocs ++ [⟨itemId, tk⟩] }
    let r := allocateItem cap itemId ds (rem - tk)
    (d2 :: r.1, r.2)

/-- Modelled from the spec: process the (already sorted) work items in order,
allocating each across the days; an item with an unplaced remainder at week's
end is reported as overflow. -/
def distributeCore (cap : ℕ) : List DWorkItem → List DaySchedule →
    List DaySchedule × List OverflowReport
  | [], days => (days, [])
  | it :: rest, days =>
    let a := allocateItem cap it.id days it.estimatedMinutes
    let r := distributeCore cap rest a.1
    (r.1, if a.2 = 0 then r.2 else ⟨it.id, a.2⟩ :: r.2)

/-- Modelled from the spec: stable sort by priority (urgent > high > medium >
low); stability keeps the creation order within equal priorities. -/
def sortWorkItems (items : List DWorkItem) : List DWorkItem :=
  items.insertionSort (fun a b => a.priority.rank ≤ b.priority.rank)

/-- Modelled from the spec: the greedy bin-packing pass of the Weekly
Distributor over `numDays` empty days of `cap` minutes each. -/
def distribute_8_hour_days (cap numDays : ℕ) (items : List DWorkItem) :
    List DaySchedule × List OverflowReport :=
  distributeCore cap (sortWorkItems items) (List.replicate numDays ⟨[]⟩)

/-- Minutes a day allocates to work item `j`. -/
def dayAllocatedTo (d : DaySchedule) (j : ℕ) : ℕ :=
  ((d.allocs.filter (fun a => a.itemId == j)).map Allocation.minutes).sum

/-- Minutes allocated to work item `j` across all days of the week. -/
def allocatedTo (days : List DaySchedule) (j : ℕ) : ℕ :=
  (days.map (fun d => dayAllocatedTo d j)).sum

theorem used_snoc (d : DaySchedule) (a : Allocation) :
    DaySchedule.used { allocs := d.allocs ++ [a] } = d.used + a.minutes := by
  simp [DaySchedule.used]

theorem dayAllocatedTo_snoc_self (d : DaySchedule) (j m : ℕ) :
    dayAllocatedTo { allocs := d.allocs ++ [⟨j, m⟩] } j =
      dayAllocatedTo d j + m := by
  simp [dayAllocatedTo, List.filter_append]

theorem dayAllocatedTo_snoc_other (d : DaySchedule) (i m j : ℕ) (h : i ≠ j) :
    dayAllocatedTo { allocs := d.allocs ++ [⟨i, m⟩] } j =
      dayAllocatedTo d j := by
  simp [dayAllocatedTo, List.filter_append, h]

theorem allocateItem_used_le (cap itemId : ℕ) :
    ∀ (days : List DaySchedule) (rem : ℕ),
      (∀ d ∈ days, d.used ≤ cap) →
      ∀ d ∈ (allocateItem cap itemId days rem).1, d.used ≤ cap := by
  intro days
  induction days with
  | nil => intro rem h d hd; simp [allocateItem] at hd
  | cons d0 ds ih =>
    intro rem h d hd
    simp only [allocateItem] at hd
    rcases List.mem_cons.mp hd with h1 | h2
    · subst h1
      by_cases htk : min (cap - d0.used) rem = 0
      · simpa [htk] using h d0 (List.mem_cons_self d0 ds)
      · rw [if_neg htk, used_snoc]
        have h0 : d0.used ≤ cap := h d0 (List.mem_cons_self d0 ds)
        calc d0.used + min (cap - d0.used) rem
            ≤ d0.used + (cap - d0.used) := by
              exact Nat.add_le_add_left (Nat.min_le_left _ _) _
          _ = cap := Nat.add_sub_cancel' h0
    · exact ih (rem - min (cap - d0.used) rem)
        (fun x hx => h x (List.mem_cons_of_mem d0 hx)) d h2

theorem allocateItem_rem_le (cap itemId : ℕ) :
    ∀ (days : List DaySchedule) (rem : ℕ),
      (allocateItem cap itemId days rem).2 ≤ rem := by
  intro days
  induction days with
  | nil => intro rem; simp [allocateItem]
  | cons d0 ds ih =>
    intro rem
    simp only [allocateItem]
    exact le_trans (ih (rem - min (cap - d0.used) rem)) (Nat.sub_le _ _)

theorem allocateItem_allocatedTo_self (cap itemId : ℕ) :
    ∀ (days : List DaySchedule) (rem : ℕ),
      allocatedTo (allocateItem cap itemId days rem).1 itemId =
        allocatedTo days itemId +
          (rem - (allocateItem cap itemId days rem).2) := by
  intro days
  induction days with
  | nil => intro rem; simp [allocateItem, allocatedTo]
  | cons d0 ds ih =>
    intro rem
    simp only [allocateItem, allocatedTo, List.map_cons, List.sum_cons]
    have hrec := ih (rem - min (cap - d0.used) rem)
    simp only [allocatedTo] at hrec
    rw [hrec]
    have htk_le : min (cap - d0.used) rem ≤ rem := Nat.min_le_right _ _
    have hrem_le :
        (allocateItem cap itemId ds (rem - min (cap - d0.used) rem)).2 ≤
          rem - min (cap - d0.used) rem := allocateItem_rem_le _ _ _ _
    by_cases htk : min (cap - d0.used) rem = 0
    · simp [htk]
      omega
    · rw [if_neg htk, dayAllocatedTo_snoc_self]
      omega

theorem allocateItem_allocatedTo_other (cap itemId j : ℕ) (hj : j ≠ itemId) :
    ∀ (days : List DaySchedule) (rem : ℕ),
      allocatedTo (allocateItem cap itemId days rem).1 j =
        allocatedTo days j := by
  intro days
  induction days with
  | nil => intro rem; simp [allocateItem]
  | cons d0 ds ih =>
    intro rem
    simp only [allocateItem, allocatedTo, List.map_cons, List.sum_cons]
    have hrec := ih (rem - min (cap - d0.used) rem)
    simp only [allocatedTo] at hrec
    rw [hrec]
    by_cases htk : min (cap - d0.used) rem = 0
    · simp [htk]
    · rw [if_neg htk, dayAllocatedTo_snoc_other _ _ _ _ (Ne.symm hj)]

theorem distributeCore_used_le (cap : ℕ) :
    ∀ (items : List DWorkItem) (days : List DaySchedule),
      (∀ d ∈ days, d.used ≤ cap) →
      ∀ d ∈ (distributeCore cap items days).1, d.used ≤ cap := by
  intro items
  induction items with
  | nil => intro days h d hd; simpa [distributeCore] using h d (by simpa [distributeCore] using hd)
  | cons it rest ih =>
    intro days h d hd
    simp only [distributeCore] at hd
    exact ih _ (allocateItem_used_le cap it.id days it.estimatedMinutes h) d hd

theorem distributeCore_allocatedTo_notmem (cap j : ℕ) :
    ∀ (items : List DWorkItem) (days : List DaySchedule),
      j ∉ items.map DWorkItem.id →
      allocatedTo (distributeCore cap items days).1 j = allocatedTo days j := by
  intro items
  induction items with
  | nil => intro days _; simp [distributeCore]
  | cons it rest ih =>
    intro days hnot
    simp only [List.map_cons, List.mem_cons] at hnot
    push_neg at hnot
    simp only [distributeCore]
    rw [ih _ hnot.2, allocateItem_allocatedTo_other cap it.id j hnot.1]

theorem distributeCore_allocatedTo_le (cap : ℕ) :
    ∀ (items : List DWorkItem) (days : List DaySchedule) (it : DWorkItem),
      it ∈ items → (items.map DWorkItem.id).Nodup →
      allocatedTo days it.id = 0 →
      allocatedTo (distributeCore cap items days).1 it.id ≤
        it.estimatedMinutes := by
  intro items
  induction items with
  | nil => intro days it hmem; exact absurd hmem (List.not_mem_nil it)
  | cons hd rest ih =>
    intro days it hmem hnodup h0
    simp only [List.map_cons, List.nodup_cons] at hnodup
    rcases List.mem_cons.mp hmem with heq | hmem2
    · subst heq
      simp only [distributeCore]
      rw [distributeCore_allocatedTo_notmem cap it.id rest _ hnodup.1]
      rw [allocateItem_allocatedTo_self, h0, Nat.zero_add]
      exact Nat.sub_le _ _
    · have hne : it.id ≠ hd.id := by
        intro h
        exact hnodup.1 (h ▸ List.mem_map_of_mem DWorkItem.id hmem2)
      simp only [distributeCore]
      refine ih _ it hmem2 hnodup.2 ?_
      rw [allocateItem_allocatedTo_other cap hd.id it.id hne, h0]

theorem allocatedTo_replicate_empty (n j : ℕ) :
    allocatedTo (List.replicate n ⟨[]⟩) j = 0 := by
  simp [allocatedTo, dayAllocatedTo, List.map_replicate]

/-- Claim C2: for every work-item set (with distinct item identifiers), daily
capacity and week length, the Weekly Distributor's output satisfies both
invariants — no day's allocated total exceeds the daily capacity, and each
work item's allocated minutes summed across the week's DailySchedules never
exceed its estimated minutes. -/
theorem distributor_invariants (cap numDays : ℕ) (items : List DWorkItem)
    (hids : (items.map DWorkItem.id).Nodup) :
    (∀ d ∈ (distribute_8_hour_days cap numDays items).1, d.used ≤ cap) ∧
    (∀ it ∈ items,
      allocatedTo (distribute_8_hour_days cap numDays items).1 it.id ≤
        it.estimatedMinutes) := by
  have hperm : List.Perm (sortWorkItems items) items :=
    List.perm_insertionSort _ _
  constructor
  · intro d hd
    refine distributeCore_used_le cap (sortWorkItems items) _ ?_ d hd
    intro x hx
    rw [List.eq_of_mem_replicate hx]
    simp [DaySchedule.used]
  · intro it hit
    refine distributeCore_allocatedTo_le cap (sortWorkItems items) _ it ?_ ?_ ?_
    · exact hperm.mem_iff.mpr hit
    · exact ((hperm.map DWorkItem.id).nodup_iff).mpr hids
    · exact allocatedTo_replicate_empty numDays it.id

/-- Claim C2 witness: the spec §8 scenario — five 200-minute work items with
priorities urgent, high, high, medium, low and daily capacity 480. -/
theorem distributor_invariants_witness :
    (∀ d ∈ (distribute_8_hour_days 480 7
        [⟨0, .urgent, 200⟩, ⟨1, .high, 200⟩, ⟨2, .high, 200⟩,
         ⟨3, .medium, 200⟩, ⟨4, .low, 200⟩]).1, d.used ≤ 480) ∧
    (∀ it ∈ ([⟨0, .urgent, 200⟩, ⟨1, .high, 200⟩, ⟨2, .high, 200⟩,
         ⟨3, .medium, 200⟩, ⟨4, .low, 200⟩] : List DWorkItem),
      allocatedTo (distribute_8_hour_days 480 7
        [⟨0, .urgent, 200⟩, ⟨1, .high, 200⟩, ⟨2, .high, 200⟩,
         ⟨3, .medium, 200⟩, ⟨4, .low, 200⟩]).1 it.id ≤ it.estimatedMinutes) :=
  distributor_invariants 480 7
    [⟨0, .urgent, 200⟩, ⟨1, .high, 200⟩, ⟨2, .high, 200⟩,
     ⟨3, .medium, 200⟩, ⟨4, .low, 200⟩] (by decide)

/-- Claim C6: the Weekly Distributor is deterministic — two runs on the same
work-item list in the same order, the same daily capacity and the same week
length produce identical DailySchedule sequences (and overflow reports). -/
theorem distributor_deterministic (items1 items2 : List DWorkItem)
    (cap1 cap2 numDays1 numDays2 : ℕ)
    (hitems : items1 = items2) (hcap : cap1 = cap2)
    (hdays : numDays1 = numDays2) :
    distribute_8_hour_days cap1 numDays1 items1 =
      distribute_8_hour_days cap2 numDays2 items2 := by
  rw [hitems, hcap, hdays]

/-- Claim C6 witness: determinism applied at a concrete two-item input. -/
theorem distributor_deterministic_witness :
    distribute_8_hour_days 480 7 [⟨0, .urgent, 500⟩, ⟨1, .low, 120⟩] =
      distribute_8_hour_days 480 7 [⟨0, .urgent, 500⟩, ⟨1, .low, 120⟩] :=
  distributor_deterministic [⟨0, .urgent, 500⟩, ⟨1, .low, 120⟩]
    [⟨0, .urgent, 500⟩, ⟨1, .low, 120⟩] 480 480 7 7 rfl rfl rfl

end DailyLogger

namespace DailyLogger

/-! ## Ticket match parsing and the ticket matcher -/

/-- A parsed ticket match (the `TicketMatch` schema of the development
document): ticket key, confidence and textual reason. -/
structure TicketMatch where
  ticket_key : String
  confidence : ℚ
  reason : String
deriving Repr, DecidableEq

/-- One element of the JSON array returned by the matching prompt; a missing
key is `none`. -/
structure MatchJson where
  ticket_key : Option String
  confidence : Option ℚ
  reason : Option String
deriving Repr, DecidableEq

/-- The matching response: either a decoded JSON array or a decode failure. -/
inductive MatchesResponse where
  | parsed (items : List MatchJson)
  | malformed (raw : String)
deriving Repr, DecidableEq

/-- One array element as `parse_ticket_matches` reads it: `ticket_key` and
`confidence` are accessed by subscript (a missing key raises `KeyError`),
`reason` via `.get` with default. -/
def parseMatchJson (m : MatchJson) : Option TicketMatch :=
  match m.ticket_key, m.confidence with
  | some k, some c => some ⟨k, c, m.reason.getD ""⟩
  | _, _ => none

/-- Embedding of `AIResponseParser.parse_ticket_matches`: a JSON decode
failure, or a `KeyError` on any element, returns the empty list; otherwise
every element becomes a `TicketMatch`. -/
def parse_ticket_matches : MatchesResponse → List TicketMatch
  | .malformed _ => []
  | .parsed items =>
    match items.mapM parseMatchJson with
    | some ms => ms
    | none => []

/-- A cached JIRA ticket as the matcher consumes it; `titleWords` are the
words of the title, `updatedAt` a timestamp. -/
structure JIRATicket where
  key : String
  titleWords : List String
  labels : List String
  updatedAt : ℕ
deriving Repr, DecidableEq

/-- Modelled from the spec: the Jaccard-style keyword-overlap ratio between
the extraction's keyword set and a ticket's title/label words (spec §4.2). -/
def jaccard (a b : List String) : ℚ :=
  let u := (a ++ b).dedup.length
  if u = 0 then 0
  else ((a.dedup.filter (fun s => decide (s ∈ b))).length : ℚ) / u

/-- The semantic-pass confidence a parsed response assigns to a ticket key
(0 when the key is absent). -/
def semanticScore (ms : List TicketMatch) (k : String) : ℚ :=
  ((ms.find? (fun m => m.ticket_key == k)).map TicketMatch.confidence).getD 0

/-- A ranked matcher candidate. -/
structure RankedMatch where
  ticket_key : String
  confidence : ℚ
  updatedAt : ℕ
deriving Repr, DecidableEq

/-- Modelled from the spec: the configured floor below which matches are
discarded entirely (spec §4.2, e.g. 0.5). -/
def matchFloor : ℚ := 1/2

/-- The matcher's output order: descending match-confidence, ties broken by
the most recently updated ticket. -/
def rankOrder (a b : RankedMatch) : Prop :=
  b.confidence < a.confidence ∨
    (a.confidence = b.confidence ∧ b.updatedAt ≤ a.updatedAt)

instance : DecidableRel rankOrder := fun a b => by
  unfold rankOrder
  infer_instance

instance : IsTrans RankedMatch rankOrder := by
  constructor
  intro a b c hab hbc
  rcases hab with h1 | ⟨h1, h2⟩ <;> rcases hbc with h3 | ⟨h3, h4⟩
  · exact Or.inl (lt_trans h3 h1)
  · exact Or.inl (h3 ▸ h1)
  · exact Or.inl (h1 ▸ h3)
  · exact Or.inr ⟨h1.trans h3, le_trans h4 h2⟩

instance : IsTotal RankedMatch rankOrder := by
  constructor
  intro a b
  rcases lt_trichotomy a.confidence b.confidence with h | h | h
  · exact Or.inr (Or.inl h)
  · rcases le_total b.updatedAt a.updatedAt with h2 | h2
    · exact Or.inl (Or.inr ⟨h, h2⟩)
    · exact Or.inr (Or.inr ⟨h.symm, h2⟩)
  · exact Or.inl (Or.inl h)

/-- Modelled from the spec: the Ticket Matcher — `TaskMatcher.match_to_tickets`
is only declared in the design document (§4.1.2) — scores each candidate
ticket with the maximum (never the average) of the keyword-overlap signal and
the semantic-pass signal (the latter parsed by `parse_ticket_matches`), sorts
candidates descending by match-confidence with ties broken by the most
recently updated ticket, and discards candidates below the floor. -/
def match_to_tickets (keywords : List String) (tickets : List JIRATicket)
    (response : MatchesResponse) : List RankedMatch :=
  let sem := parse_ticket_matches response
  let scored := tickets.map (fun t =>
    { ticket_key := t.key
      confidence := max (jaccard keywords (t.titleWords ++ t.labels))
        (semanticScore sem t.key)
      updatedAt := t.updatedAt : RankedMatch })
  (scored.insertionSort rankOrder).filter
    (fun m => decide (matchFloor ≤ m.confidence))

/-- Claim C5: every candidate the matcher returns carries as its final
match-confidence the maximum (not the average) of the keyword-overlap signal
and the semantic-pass signal of some input ticket, no returned candidate's
confidence is below the configured floor 0.5, and the returned list is sorted
descending by match-confidence with ties broken by the most recently updated
ticket. -/
theorem matcher_max_sorted_floored (keywords : List String)
    (tickets : List JIRATicket) (response : MatchesResponse) :
    (∀ m ∈ match_to_tickets keywords tickets response,
      matchFloor ≤ m.confidence ∧
      ∃ t ∈ tickets, m.ticket_key = t.key ∧ m.updatedAt = t.updatedAt ∧
        m.confidence = max (jaccard keywords (t.titleWords ++ t.labels))
          (semanticScore (parse_ticket_matches response) t.key)) ∧
    List.Sorted rankOrder (match_to_tickets keywords tickets response) := by
  constructor
  · intro m hm
    rw [match_to_tickets, List.mem_filter] at hm
    obtain ⟨hmem, hfloor⟩ := hm
    refine ⟨by simpa using hfloor, ?_⟩
    rw [List.mem_insertionSort, List.mem_map] at hmem
    obtain ⟨t, ht, hmt⟩ := hmem
    exact ⟨t, ht, by rw [← hmt], by rw [← hmt], by rw [← hmt]⟩
  · rw [match_to_tickets]
    exact List.Pairwise.sublist (List.filter_sublist _)
      (List.sorted_insertionSort rankOrder _)

theorem matcher_eval_example :
    match_to_tickets [] [⟨"PROJC", ["x"], [], 5⟩]
      (.parsed [⟨some "PROJC", some (9/10), some "match"⟩]) =
    [⟨"PROJC", 9/10, 5⟩] := by
  have h2 : parse_ticket_matches
      (.parsed [⟨some "PROJC", some (9/10), some "match"⟩]) =
      [⟨"PROJC", 9/10, "match"⟩] := rfl
  simp only [match_to_tickets, h2, List.map, jaccard, semanticScore]
  norm_num [List.insertionSort, List.orderedInsert, List.dedup, List.pwFilter,
    matchFloor, List.find?]

/-- Claim C5 witness: the matcher applied with no extraction keywords to
ticket PROJC and a semantic pass reporting confidence 0.9; the returned
candidate clears the floor. -/
theorem matcher_max_sorted_floored_witness :
    matchFloor ≤ (RankedMatch.mk "PROJC" (9/10) 5).confidence :=
  ((matcher_max_sorted_floored [] [⟨"PROJC", ["x"], [], 5⟩]
      (.parsed [⟨some "PROJC", some (9/10), some "match"⟩])).1
    (RankedMatch.mk "PROJC" (9/10) 5)
    (by rw [matcher_eval_example]; exact List.mem_singleton.mpr rfl)).1

end DailyLogger

namespace DailyLogger

/-! ## Report composer (modelled from the spec) -/

/-- A stored work item as the Report Composer consumes it; `day` is the date
it falls on. -/
structure RWorkItem where
  id : ℕ
  day : ℕ
  status : WIStatus
  estimatedMinutes : ℕ
  actualMinutes : Option ℕ
  confidence : ℚ
deriving Repr, DecidableEq

/-- Minutes a work item contributes to a report: actual minutes when present,
else the estimate. -/
def RWorkItem.minutes (w : RWorkItem) : ℕ :=
  w.actualMinutes.getD w.estimatedMinutes

/-- Report lifecycle states (spec §3). -/
inductive ReportStatus where
  | generating
  | completed
  | failed
deriving Repr, DecidableEq

/-- A composed report: its constituent work items, aggregated total minutes,
quality score and status. -/
structure Report where
  items : List RWorkItem
  totalMinutes : ℕ
  qualityScore : ℚ
  status : ReportStatus
deriving Repr, DecidableEq

/-- Modelled from the spec: §4.5 selects all non-cancelled work items
overlapping the date range. -/
def selectItems (items : List RWorkItem) (lo hi : ℕ) : List RWorkItem :=
  items.filter (fun w =>
    decide (w.status ≠ .cancelled) && decide (lo ≤ w.day) && decide (w.day ≤ hi))

/-- Modelled from the spec: the quality score is the fraction of included
work items with confidence at least the high threshold. -/
def reportQuality (included : List RWorkItem) : ℚ :=
  if included.length = 0 then 0
  else ((included.filter
    (fun w => decide (highThreshold ≤ w.confidence))).length : ℚ) /
      included.length

/-- Modelled from the spec: the Report Composer (§4.5) — only its generator
classes are declared in the design document — selects the non-cancelled
work items overlapping the range and aggregates total minutes
(actual-minutes if present else estimated-minutes) over them. -/
def composeReport (items : List RWorkItem) (lo hi : ℕ) : Report :=
  let included := selectItems items lo hi
  { items := included
    totalMinutes := included.foldl (fun acc w => acc + w.minutes) 0
    qualityScore := reportQuality included
    status := .completed }

theorem foldl_add_minutes (l : List RWorkItem) (a : ℕ) :
    l.foldl (fun acc w => acc + w.minutes) a =
      a + (l.map RWorkItem.minutes).sum := by
  induction l generalizing a with
  | nil => simp
  | cons x xs ih => simp [List.foldl_cons, ih, Nat.add_assoc]

/-- Claim C7: a composed report's aggregated total minutes equal the sum,
over its constituent work items — exactly the non-cancelled work items
overlapping the range — of each item's actual minutes when present, else its
estimated minutes. -/
theorem report_total_roundtrip (items : List RWorkItem) (lo hi : ℕ) :
    (composeReport items lo hi).totalMinutes =
      ((composeReport items lo hi).items.map RWorkItem.minutes).sum ∧
    ∀ w, w ∈ (composeReport items lo hi).items ↔
      (w ∈ items ∧ w.status ≠ .cancelled ∧ lo ≤ w.day ∧ w.day ≤ hi) := by
  constructor
  · show (selectItems items lo hi).foldl (fun acc w => acc + w.minutes) 0 =
      ((selectItems items lo hi).map RWorkItem.minutes).sum
    rw [foldl_add_minutes]
    exact Nat.zero_add _
  · intro w
    show w ∈ selectItems items lo hi ↔ _
    rw [selectItems, List.mem_filter]
    simp only [Bool.and_eq_true, decide_eq_true_eq]
    tauto

/-- Claim C7 witness: the round-trip applied to a two-item list (one item
with recorded actual minutes, one cancelled item excluded). -/
theorem report_total_roundtrip_witness :
    (composeReport
      [⟨0, 3, .completed, 60, some 90, 9/10⟩,
       ⟨1, 4, .cancelled, 30, none, 1/2⟩] 0 7).totalMinutes =
      (((composeReport
        [⟨0, 3, .completed, 60, some 90, 9/10⟩,
         ⟨1, 4, .cancelled, 30, none, 1/2⟩] 0 7)).items.map
          RWorkItem.minutes).sum :=
  (report_total_roundtrip
    [⟨0, 3, .completed, 60, some 90, 9/10⟩,
     ⟨1, 4, .cancelled, 30, none, 1/2⟩] 0 7).1

/-! ## Task orchestrator (modelled from the spec) -/

/-- A normalized raw message: stable source id and the ordered extractions
the analyzer produced from it (ordinals are list positions). -/
structure RawMessage where
  sourceId : String
  extractions : List AIAnalysis
deriving Repr, DecidableEq

/-- A work item held by the WorkItem Store, keyed for dedup by
(source-id, extraction ordinal). -/
structure StoredWorkItem where
  sourceId : String
  ordinal : ℕ
  description : String
deriving Repr, DecidableEq

/-- Whether the store already holds a work item with the given dedup key. -/
def hasKey (s : List StoredWorkItem) (a : String) (i : ℕ) : Bool :=
  s.any (fun x => x.sourceId == a && x.ordinal == i)

/-- Modelled from the spec: the WorkItem Store contract (§6) — atomic
create-if-absent keyed by the dedup key. -/
def createIfAbsent (s : List StoredWorkItem) (w : StoredWorkItem) :
    List StoredWorkItem :=
  if hasKey s w.sourceId w.ordinal then s else s ++ [w]

/-- Modelled from the spec: one orchestrator pass over the message's
extractions from ordinal `i` upward, creating each derived work item through
create-if-absent (§4.4 idempotent effects). -/
def processFrom (srcId : String) :
    ℕ → List AIAnalysis → List StoredWorkItem → List StoredWorkItem
  | _, [], s => s
  | i, e :: rest, s =>
      processFrom srcId (i + 1) rest
        (createIfAbsent s ⟨srcId, i, e.description⟩)

/-- Modelled from the spec: running the orchestrator pipeline once over a
message against the store. -/
def runPipeline (msg : RawMessage) (s : List StoredWorkItem) :
    List StoredWorkItem :=
  processFrom msg.sourceId 0 msg.extractions s

/-- The number of stored work items carrying a given dedup key. -/
def countKey (s : List StoredWorkItem) (a : String) (i : ℕ) : ℕ :=
  (s.filter (fun x => x.sourceId == a && x.ordinal == i)).length

theorem hasKey_append (s : List StoredWorkItem) (w : StoredWorkItem)
    (a : String) (i : ℕ) :
    hasKey (s ++ [w]) a i =
      (hasKey s a i || (w.sourceId == a && w.ordinal == i)) := by
  simp [hasKey, List.any_append]

theorem hasKey_createIfAbsent_mono (s : List StoredWorkItem)
    (w : StoredWorkItem) (a : String) (i : ℕ) (h : hasKey s a i = true) :
    hasKey (createIfAbsent s w) a i = true := by
  unfold createIfAbsent
  split
  · exact h
  · rw [hasKey_append, h, Bool.true_or]

theorem hasKey_createIfAbsent_self (s : List StoredWorkItem)
    (w : StoredWorkItem) :
    hasKey (createIfAbsent s w) w.sourceId w.ordinal = true := by
  unfold createIfAbsent
  split
  · assumption
  · rw [hasKey_append]
    simp

theorem createIfAbsent_of_hasKey (s : List StoredWorkItem)
    (w : StoredWorkItem) (h : hasKey s w.sourceId w.ordinal = true) :
    createIfAbsent s w = s := by
  unfold createIfAbsent
  rw [h]
  rfl

theorem processFrom_hasKey_mono (srcId : String) :
    ∀ (l : List AIAnalysis) (i : ℕ) (s : List StoredWorkItem) (a : String)
      (j : ℕ), hasKey s a j = true →
      hasKey (processFrom srcId i l s) a j = true := by
  intro l
  induction l with
  | nil => intro i s a j h; exact h
  | cons e rest ih =>
    intro i s a j h
    exact ih (i + 1) _ a j (hasKey_createIfAbsent_mono s _ a j h)

theorem processFrom_hasKey (srcId : String) :
    ∀ (l : List AIAnalysis) (i : ℕ) (s : List StoredWorkItem) (j : ℕ),
      i ≤ j → j < i + l.length →
      hasKey (processFrom srcId i l s) srcId j = true := by
  intro l
  induction l with
  | nil => intro i s j h1 h2; simp at h2; omega
  | cons e rest ih =>
    intro i s j h1 h2
    rcases Nat.eq_or_lt_of_le h1 with heq | hlt
    · subst heq
      exact processFrom_hasKey_mono srcId rest (i + 1) _ srcId i
        (hasKey_createIfAbsent_self s ⟨srcId, i, e.description⟩)
    · refine ih (i + 1) _ j hlt ?_
      simp only [List.length_cons] at h2
      omega

theorem processFrom_noop (srcId : String) :
    ∀ (l : List AIAnalysis) (i : ℕ) (s : List StoredWorkItem),
      (∀ j, i ≤ j → j < i + l.length → hasKey s srcId j = true) →
      processFrom srcId i l s = s := by
  intro l
  induction l with
  | nil => intro i s _; rfl
  | cons e rest ih =>
    intro i s h
    have h0 : hasKey s srcId i = true :=
      h i (le_refl i) (by simp only [List.length_cons]; omega)
    simp only [processFrom]
    rw [createIfAbsent_of_hasKey s _ h0]
    refine ih (i + 1) s ?_
    intro j hj1 hj2
    refine h j (by omega) ?_
    simp only [List.length_cons]
    omega

theorem countKey_createIfAbsent_other (s : List StoredWorkItem)
    (w : StoredWorkItem) (a : String) (i : ℕ)
    (h : ¬ (w.sourceId = a ∧ w.ordinal = i)) :
    countKey (createIfAbsent s w) a i = countKey s a i := by
  unfold createIfAbsent
  split
  · rfl
  · unfold countKey
    have hpw : (w.sourceId == a && w.ordinal == i) = false := by
      rw [Bool.eq_false_iff]
      intro hcontra
      rw [Bool.and_eq_true, beq_iff_eq, beq_iff_eq] at hcontra
      exact h hcontra
    rw [List.filter_append]
    simp [List.filter_cons, hpw]

theorem countKey_hasKey_false (s : List StoredWorkItem) (a : String) (i : ℕ)
    (h : hasKey s a i = false) : countKey s a i = 0 := by
  unfold countKey
  rw [List.length_eq_zero, List.filter_eq_nil_iff]
  intro x hx
  unfold hasKey at h
  rw [List.any_eq_false] at h
  simpa using h x hx

end DailyLogger

namespace DailyLogger

theorem hasKey_false_iff_countKey_zero (s : List StoredWorkItem) (a : String)
    (i : ℕ) : hasKey s a i = false ↔ countKey s a i = 0 := by
  unfold hasKey countKey
  rw [List.any_eq_false, List.length_eq_zero, List.filter_eq_nil_iff]

theorem countKey_append_self (s : List StoredWorkItem) (w : StoredWorkItem) :
    countKey (s ++ [w]) w.sourceId w.ordinal =
      countKey s w.sourceId w.ordinal + 1 := by
  unfold countKey
  rw [List.filter_append]
  simp [List.filter_cons]

theorem countKey_processFrom_lt (srcId : String) :
    ∀ (l : List AIAnalysis) (i : ℕ) (s : List StoredWorkItem) (j : ℕ),
      j < i →
      countKey (processFrom srcId i l s) srcId j = countKey s srcId j := by
  intro l
  induction l with
  | nil => intro i s j _; rfl
  | cons e rest ih =>
    intro i s j hj
    simp only [processFrom]
    rw [ih (i + 1) _ j (by omega)]
    exact countKey_createIfAbsent_other s _ srcId j (by
      rintro ⟨-, h2⟩
      simp only at h2
      omega)

theorem countKey_processFrom_one (srcId : String) :
    ∀ (l : List AIAnalysis) (i : ℕ) (s : List StoredWorkItem) (j : ℕ),
      i ≤ j → j < i + l.length → countKey s srcId j = 0 →
      countKey (processFrom srcId i l s) srcId j = 1 := by
  intro l
  induction l with
  | nil => intro i s j h1 h2 _; simp at h2; omega
  | cons e rest ih =>
    intro i s j h1 h2 h0
    rcases Nat.eq_or_lt_of_le h1 with heq | hlt
    · subst heq
      simp only [processFrom]
      rw [countKey_processFrom_lt srcId rest (i + 1) _ i (by omega)]
      have hfalse : hasKey s srcId i = false :=
        (hasKey_false_iff_countKey_zero s srcId i).mpr h0
      unfold createIfAbsent
      simp only [hfalse, Bool.false_eq_true, if_false]
      calc countKey (s ++ [(⟨srcId, i, e.description⟩ : StoredWorkItem)]) srcId i
          = countKey s srcId i + 1 :=
            countKey_append_self s ⟨srcId, i, e.description⟩
        _ = 1 := by rw [h0]
    · simp only [processFrom]
      refine ih (i + 1) _ j hlt (by simp only [List.length_cons] at h2; omega) ?_
      rw [countKey_createIfAbsent_other s _ srcId j (by
        rintro ⟨-, hc⟩
        simp only at hc
        omega)]
      exact h0

/-- Claim C8: running the orchestrator pipeline twice on the same raw message
(with no cancellation in between) leaves the store exactly as one run does,
and for every extraction ordinal the store then holds exactly one work item
with the dedup key (source-id, ordinal) — re-running creates no duplicates. -/
theorem orchestrator_idempotent (msg : RawMessage) (s : List StoredWorkItem) :
    runPipeline msg (runPipeline msg s) = runPipeline msg s ∧
    (∀ i, i < msg.extractions.length → countKey s msg.sourceId i = 0 →
      countKey (runPipeline msg (runPipeline msg s)) msg.sourceId i = 1) := by
  have hidem : runPipeline msg (runPipeline msg s) = runPipeline msg s := by
    unfold runPipeline
    refine processFrom_noop msg.sourceId msg.extractions 0 _ ?_
    intro j hj1 hj2
    exact processFrom_hasKey msg.sourceId msg.extractions 0 s j hj1 hj2
  refine ⟨hidem, ?_⟩
  intro i hi h0
  rw [hidem]
  unfold runPipeline
  exact countKey_processFrom_one msg.sourceId msg.extractions 0 s i
    (Nat.zero_le i) (by omega) h0

/-- Claim C8 witness: two runs over a one-extraction message against the
empty store leave exactly one work item under the dedup key. -/
theorem orchestrator_idempotent_witness :
    countKey
      (runPipeline ⟨"m1", [⟨"fixed auth bug", 120, ["auth"], 9/10, ""⟩]⟩
        (runPipeline ⟨"m1", [⟨"fixed auth bug", 120, ["auth"], 9/10, ""⟩]⟩ []))
      "m1" 0 = 1 :=
  (orchestrator_idempotent
    ⟨"m1", [⟨"fixed auth bug", 120, ["auth"], 9/10, ""⟩]⟩ []).2 0
    (Nat.lt_of_sub_eq_succ rfl) rfl

end DailyLogger
